import Mathlib

/-!
Verification development for the mc-packer repository.

The Rust source (`src/src/main.rs`) contains only the command-line argument
schema (`SharedOpt`, `Subcommand`) and a `main` that prints a greeting and
never uses the parsed arguments.  The dependency-resolution core (descriptor
data model, dependency graph, constraint resolver, query engine) exists only
at design level in the specification; each definition below that embeds that
missing core carries a doc comment starting `Modelled from the spec:`.
The `SharedOpt`/`Subcommand`/`main` embeddings at the end are taken from the
Rust source itself.
-/

namespace MCPacker

/-- Modelled from the spec: a semantic version `major.minor.patch`.  The
optional pre-release tag of the loader contract is not needed by any claim
about the graph, resolver or query engine. -/
structure Version where
  major : Nat
  minor : Nat
  patch : Nat
  deriving DecidableEq, Repr

/-- Modelled from the spec: the total lexicographic order on versions,
strict comparison. -/
def Version.lt (a b : Version) : Bool :=
  decide (a.major < b.major) ||
    (decide (a.major = b.major) && (decide (a.minor < b.minor) ||
      (decide (a.minor = b.minor) && decide (a.patch < b.patch))))

/-- Modelled from the spec: non-strict version comparison. -/
def Version.le (a b : Version) : Bool :=
  Version.lt a b || decide (a = b)

/-- Modelled from the spec: an inclusive/exclusive version range.  `none`
means unbounded on that side; the `Bool` is `true` for an inclusive bound. -/
structure VersionRange where
  lower : Option (Version × Bool)
  upper : Option (Version × Bool)
  deriving DecidableEq, Repr

/-- Modelled from the spec: membership of a version in a range. -/
def VersionRange.contains (r : VersionRange) (v : Version) : Bool :=
  (match r.lower with
   | none => true
   | some (b, incl) => if incl then Version.le b v else Version.lt b v) &&
  (match r.upper with
   | none => true
   | some (b, incl) => if incl then Version.le v b else Version.lt v b)

/-- Modelled from the spec: a dependency constraint of a descriptor
(target mod id, version range, optional flag). -/
structure DepConstraint where
  target : String
  range : VersionRange
  optional : Bool
  deriving DecidableEq, Repr

/-- Modelled from the spec: an incompatibility constraint of a descriptor
(target mod id, forbidden version range). -/
structure IncompatConstraint where
  target : String
  range : VersionRange
  deriving DecidableEq, Repr

/-- Modelled from the spec: `ModDescriptor` — id, declared version, declared
dependencies and declared incompatibilities.  Immutable once loaded. -/
structure ModDescriptor where
  id : String
  version : Version
  deps : List DepConstraint
  incompats : List IncompatConstraint
  deriving DecidableEq, Repr

/-- Modelled from the spec: a graph node is either a present descriptor or
the synthetic "absent" node created for an unknown dependency target. -/
inductive Node where
  | present (d : ModDescriptor)
  | absent (id : String)
  deriving DecidableEq, Repr

/-- Modelled from the spec: the id labelling a node. -/
def Node.nodeId : Node → String
  | .present d => d.id
  | .absent i => i

/-- Modelled from the spec: a graph edge with constraint payload; `isDep` is
`true` for dependency edges and `false` for incompatibility edges. -/
structure Edge where
  src : String
  target : String
  range : VersionRange
  isDep : Bool
  deriving DecidableEq, Repr

/-- Modelled from the spec: `DependencyGraph` — nodes plus dependency and
incompatibility edges with constraint payload. -/
structure DependencyGraph where
  nodes : List Node
  edges : List Edge
  deriving DecidableEq, Repr

/-- Modelled from the spec: the edges contributed by one descriptor. -/
def descriptorEdges (d : ModDescriptor) : List Edge :=
  d.deps.map (fun c => ⟨d.id, c.target, c.range, true⟩) ++
    d.incompats.map (fun c => ⟨d.id, c.target, c.range, false⟩)

/-- Modelled from the spec: `build(descriptors) -> DependencyGraph`.  It is a
total function: unknown dependency targets become synthetic absent nodes
rather than being rejected. -/
def build (ds : List ModDescriptor) : DependencyGraph :=
  let ids := ds.map ModDescriptor.id
  let edges := (ds.map descriptorEdges).flatten
  let absentIds := ((edges.map Edge.target).filter (fun t => !ids.contains t)).dedup
  ⟨ds.map Node.present ++ absentIds.map Node.absent, edges⟩

/-- Modelled from the spec: lookup in the `--override-versions` table. -/
def lookupOverride : List (String × Version) → String → Option Version
  | [], _ => none
  | (k, v) :: rest, i => if k == i then some v else lookupOverride rest i

/-- Modelled from the spec: find the present descriptor for an id, if any. -/
def findDescriptor : List Node → String → Option ModDescriptor
  | [], _ => none
  | .present d :: rest, i => if d.id == i then some d else findDescriptor rest i
  | .absent _ :: rest, i => findDescriptor rest i

/-- Modelled from the spec: effective version of a target id — the override
table value if present, else the target's own declared version, else `none`
("absent"). -/
def effectiveVersion (g : DependencyGraph) (ov : List (String × Version))
    (i : String) : Option Version :=
  match lookupOverride ov i with
  | some v => some v
  | none => (findDescriptor g.nodes i).map ModDescriptor.version

/-- Modelled from the spec: `Verdict` — the resolver's conclusion about a
mod's dependency health. -/
inductive Verdict where
  | satisfied
  | versionMismatch (target : String) (required : VersionRange) (found : Version)
  | missingDependency (target : String)
  | conflict (target : String)
  deriving DecidableEq, Repr

/-- Modelled from the spec: the totally ordered severity of a verdict,
`Conflict > MissingDependency > VersionMismatch > Satisfied`. -/
def severity : Verdict → Nat
  | .satisfied => 0
  | .versionMismatch _ _ _ => 1
  | .missingDependency _ => 2
  | .conflict _ => 3

/-- Modelled from the spec: the worse of two verdicts (the later one only if
strictly more severe, so the first maximal verdict wins). -/
def worse (a b : Verdict) : Verdict :=
  if severity a < severity b then b else a

/-- Modelled from the spec: the worst verdict in a list (`Satisfied` for an
empty list: a mod with no edges is satisfied). -/
def worst (l : List Verdict) : Verdict :=
  l.foldl worse .satisfied

/-- Modelled from the spec: the largest severity occurring in a list of
verdicts (`0` for the empty list). -/
def maxSeverity (l : List Verdict) : Nat :=
  l.foldl (fun n v => Nat.max n (severity v)) 0

/-- Modelled from the spec: per-dependency-edge evaluation — absent target
gives `MissingDependency`, out-of-range gives `VersionMismatch`, in-range
gives `Satisfied`. -/
def evalDep (g : DependencyGraph) (ov : List (String × Version)) (e : Edge) : Verdict :=
  match effectiveVersion g ov e.target with
  | none => .missingDependency e.target
  | some v =>
    if e.range.contains v then .satisfied
    else .versionMismatch e.target e.range v

/-- Modelled from the spec: an incompatibility edge is active when its
target's effective version exists and lies inside the forbidden range. -/
def incompatActive (g : DependencyGraph) (ov : List (String × Version)) (e : Edge) : Bool :=
  match effectiveVersion g ov e.target with
  | none => false
  | some v => e.range.contains v

/-- Modelled from the spec: `Conflict` verdicts for a mod id — one for each
active incompatibility edge it declares, and one for each active
incompatibility edge declared against it (both sides of a pair conflict). -/
def conflictVerdicts (g : DependencyGraph) (ov : List (String × Version))
    (i : String) : List Verdict :=
  ((g.edges.filter (fun e => !e.isDep && e.src == i && incompatActive g ov e)).map
      (fun e => Verdict.conflict e.target)) ++
    ((g.edges.filter (fun e => !e.isDep && e.target == i && incompatActive g ov e)).map
      (fun e => Verdict.conflict e.src))

/-- Modelled from the spec: the `--lie-depends` downgrade — for an id in the
LieSet, `MissingDependency` and `VersionMismatch` become `Satisfied`, while
`Conflict` (and `Satisfied`) pass through unchanged. -/
def applyLie (lies : List String) (i : String) (v : Verdict) : Verdict :=
  if lies.contains i then
    match v with
    | .missingDependency _ => .satisfied
    | .versionMismatch _ _ _ => .satisfied
    | w => w
  else v

/-- Modelled from the spec: the verdicts of a mod id's outgoing dependency
edges, after the LieSet downgrade. -/
def depVerdicts (g : DependencyGraph) (ov : List (String × Version))
    (lies : List String) (i : String) : List Verdict :=
  (g.edges.filter (fun e => e.isDep && e.src == i)).map
    (fun e => applyLie lies i (evalDep g ov e))

/-- Modelled from the spec: all per-edge verdicts contributing to a mod id's
overall verdict — dependency-edge verdicts then conflict verdicts. -/
def edgeVerdicts (g : DependencyGraph) (ov : List (String × Version))
    (lies : List String) (i : String) : List Verdict :=
  depVerdicts g ov lies i ++ conflictVerdicts g ov i

/-- Modelled from the spec: a mod id's overall verdict is the worst of its
per-edge verdicts. -/
def nodeVerdict (g : DependencyGraph) (ov : List (String × Version))
    (lies : List String) (i : String) : Verdict :=
  worst (edgeVerdicts g ov lies i)

/-- Modelled from the spec: the `ResolvedSnapshot` — one verdict per mod id
in the graph.  Total: it is a plain `List.map`, no failure path. -/
def resolve (g : DependencyGraph) (ov : List (String × Version))
    (lies : List String) : List (String × Verdict) :=
  g.nodes.map (fun n => (n.nodeId, nodeVerdict g ov lies n.nodeId))

/-- Modelled from the spec: how a `why-depends` trace ends — normally, or
with a `Cycle` marker when a node is visited twice. -/
inductive TraceEnd where
  | done
  | cycle
  deriving DecidableEq, Repr

/-- Modelled from the spec: a `why-depends` trace — the ordered chain of
followed edges (target id and edge verdict) plus how the trace ended. -/
structure Trace where
  steps : List (String × Verdict)
  ending : TraceEnd
  deriving DecidableEq, Repr

/-- Modelled from the spec: the candidate edges leaving a mod id for the
trace — each dependency edge with its (lie-adjusted) verdict, and each
active incompatibility edge touching the id with its `Conflict` verdict. -/
def edgeChoices (g : DependencyGraph) (ov : List (String × Version))
    (lies : List String) (i : String) : List (String × Verdict) :=
  ((g.edges.filter (fun e => e.isDep && e.src == i)).map
      (fun e => (e.target, applyLie lies i (evalDep g ov e)))) ++
    ((g.edges.filter (fun e => !e.isDep && e.src == i && incompatActive g ov e)).map
      (fun e => (e.target, Verdict.conflict e.target))) ++
    ((g.edges.filter (fun e => !e.isDep && e.target == i && incompatActive g ov e)).map
      (fun e => (e.src, Verdict.conflict e.src)))

/-- Modelled from the spec: pick the worst-verdict edge (the first one of
maximal severity). -/
def pickWorst : List (String × Verdict) → Option (String × Verdict)
  | [] => none
  | p :: rest =>
    match pickWorst rest with
    | none => some p
    | some q => if severity p.2 < severity q.2 then some q else some p

/-- Modelled from the spec: the trace loop.  `visited` is the visited-set
keyed by node id; `remaining` is the pool of not-yet-visited node ids, which
shrinks at every recursive call, so the traversal terminates on every graph,
cyclic ones included.  A node seen twice ends the trace with the `Cycle`
marker; a node with no followable edge (or outside the pool) ends it
normally. -/
def traceGo (g : DependencyGraph) (ov : List (String × Version))
    (lies : List String) (current : String) (remaining : List String)
    (visited : List String) : List (String × Verdict) × TraceEnd :=
  if current ∈ visited then ([], .cycle)
  else if h : current ∈ remaining then
    match pickWorst (edgeChoices g ov lies current) with
    | none => ([], .done)
    | some (t, v) =>
      let r := traceGo g ov lies t (remaining.erase current) (current :: visited)
      ((t, v) :: r.1, r.2)
  else ([], .done)
termination_by remaining.length
decreasing_by
  have h1 := List.length_erase_of_mem h
  have h2 := List.length_pos_of_mem h
  omega

/-- Modelled from the spec: `why-depends(modid)` — `none` when the queried
id is not a node of the graph (the unknown-id case), otherwise the trace
starting from that id. -/
def whyDepends (g : DependencyGraph) (ov : List (String × Version))
    (lies : List String) (i : String) : Option Trace :=
  if g.nodes.any (fun n => n.nodeId == i) then
    some ⟨(traceGo g ov lies i (g.nodes.map Node.nodeId) []).1,
      (traceGo g ov lies i (g.nodes.map Node.nodeId) []).2⟩
  else none

/-- Modelled from the spec: `mod-info` with no id — the whole snapshot
sorted lexicographically by mod id. -/
def modInfoAll (g : DependencyGraph) (ov : List (String × Version))
    (lies : List String) : List (String × Verdict) :=
  List.insertionSort (fun a b => a.1 ≤ b.1) (resolve g ov lies)

/-- Embedded from src/src/main.rs: the `Subcommand` enum of the argument
schema. -/
inductive Subcommand where
  | whyDependsCmd (errorsOnly : Bool) (modid : String)
  | findErrorCmd (error : String)
  | modInfoCmd (modid : Option String)
  | cleanCmd
  deriving DecidableEq, Repr

/-- Embedded from src/src/main.rs: the `SharedOpt` argument record
(`PathBuf` rendered as a string). -/
structure SharedOpt where
  debug : Bool
  overrides : Option String
  lieMods : Option String
  profileDir : String
  sub : Subcommand
  deriving DecidableEq, Repr

/-- Embedded from src/src/main.rs: everything `main` writes to standard
output for a successfully parsed invocation.  The function body is
`println!("Hello, world!"); let args = SharedOpt::from_args();` and `args`
is never used afterwards, so the output is the greeting alone. -/
def mainOutput (_args : SharedOpt) : String := "Hello, world!\n"

/-- Embedded from src/src/main.rs: `main` returns `()` normally on every
successfully parsed invocation, so the process exit code is always 0. -/
def mainExitCode (_args : SharedOpt) : Nat := 0

/-- Decidability of the by-id comparison used to sort `mod-info` output. -/
instance decSnapshotLe : DecidableRel (fun a b : String × Verdict => a.1 ≤ b.1) :=
  fun a b => inferInstanceAs (Decidable (a.1 ≤ b.1))

instance totalSnapshotLe : IsTotal (String × Verdict) (fun a b => a.1 ≤ b.1) :=
  ⟨fun a b => le_total a.1 b.1⟩

instance transSnapshotLe : IsTrans (String × Verdict) (fun a b => a.1 ≤ b.1) :=
  ⟨fun _ _ _ h1 h2 => le_trans h1 h2⟩

/-! Concrete sample data used by the witness theorems below. -/

/-- Sample version 1.0.0. -/
def v1 : Version := ⟨1, 0, 0⟩

/-- Sample version 2.1.0. -/
def v21 : Version := ⟨2, 1, 0⟩

/-- The unconstrained version range. -/
def rAny : VersionRange := ⟨none, none⟩

/-- The range `>= 2.0.0`. -/
def rGe2 : VersionRange := ⟨some (⟨2, 0, 0⟩, true), none⟩

/-- Sample descriptor: `a` depends on the absent `b` (range `>= 2.0.0`) and
is incompatible with `c` on every version. -/
def dLieA : ModDescriptor := ⟨"a", v1, [⟨"b", rGe2, false⟩], [⟨"c", rAny⟩]⟩

/-- Sample descriptor: `c`, version 1.0.0, no constraints. -/
def dLieC : ModDescriptor := ⟨"c", v1, [], []⟩

/-- Sample graph with a missing dependency and an active incompatibility. -/
def gLie : DependencyGraph := build [dLieA, dLieC]

/-- Sample dependency edge from `a` to `b` requiring `>= 2.0.0`. -/
def e4 : Edge := ⟨"a", "b", rGe2, true⟩

/-- Sample graph for the override scenario: `a` requires `b >= 2.0.0`, `b`
is present at version 1.0.0. -/
def g4 : DependencyGraph :=
  build [⟨"a", v1, [⟨"b", rGe2, false⟩], []⟩, ⟨"b", v1, [], []⟩]

/-- Sample graph with a dependency cycle `a -> b -> a`. -/
def gCyc : DependencyGraph :=
  build [⟨"a", v1, [⟨"b", rAny, false⟩], []⟩, ⟨"b", v1, [⟨"a", rAny, false⟩], []⟩]

/-- Sample graph with three independent mods, ids not in sorted order. -/
def gM : DependencyGraph :=
  build [⟨"zeta", v1, [], []⟩, ⟨"alpha", v1, [], []⟩, ⟨"mid", v1, [], []⟩]

/-- Sample parsed invocation: `why-depends missingmod` on some profile. -/
def argsWhy : SharedOpt :=
  ⟨false, none, none, "profile", Subcommand.whyDependsCmd false "missingmod"⟩

/-! Helper lemmas about the severity order and worst-verdict aggregation. -/

theorem severity_le_three (v : Verdict) : severity v ≤ 3 := by
  cases v <;> simp [severity]

theorem severity_eq_three_iff (v : Verdict) : severity v = 3 ↔ ∃ t, v = Verdict.conflict t := by
  cases v <;> simp [severity]

theorem worse_eq_right (x c : Verdict) (h : severity x < severity c) : worse x c = c := by
  unfold worse
  exact if_pos h

theorem worse_eq_left (x c : Verdict) (h : ¬ severity x < severity c) : worse x c = x := by
  unfold worse
  exact if_neg h

theorem severity_worse (a b : Verdict) :
    severity (worse a b) = Nat.max (severity a) (severity b) := by
  unfold worse
  split
  · next h => exact (Nat.max_eq_right (Nat.le_of_lt h)).symm
  · next h => exact (Nat.max_eq_left (Nat.le_of_not_lt h)).symm

theorem foldl_worse_sev (l : List Verdict) (acc : Verdict) :
    severity (l.foldl worse acc) =
      l.foldl (fun n v => Nat.max n (severity v)) (severity acc) := by
  induction l generalizing acc with
  | nil => rfl
  | cons a l ih =>
    simp only [List.foldl_cons]
    rw [ih (worse acc a), severity_worse]

theorem foldl_max_init_le (l : List Verdict) (m : Nat) :
    m ≤ l.foldl (fun n v => Nat.max n (severity v)) m := by
  induction l generalizing m with
  | nil => exact Nat.le_refl m
  | cons a l ih => exact Nat.le_trans (Nat.le_max_left m (severity a)) (ih _)

theorem sev_le_foldl_max (l : List Verdict) :
    ∀ (m : Nat) (x : Verdict), x ∈ l →
      severity x ≤ l.foldl (fun n v => Nat.max n (severity v)) m := by
  induction l with
  | nil => intro m x hx; cases hx
  | cons a l ih =>
    intro m x hx
    rcases List.mem_cons.mp hx with rfl | hx
    · exact Nat.le_trans (Nat.le_max_right m (severity x)) (foldl_max_init_le l _)
    · exact ih _ x hx

theorem foldl_max_le (l : List Verdict) :
    ∀ (m k : Nat), m ≤ k → (∀ x ∈ l, severity x ≤ k) →
      l.foldl (fun n v => Nat.max n (severity v)) m ≤ k := by
  induction l with
  | nil => intro m k hm _; exact hm
  | cons a l ih =>
    intro m k hm h
    exact ih _ k (Nat.max_le.mpr ⟨hm, h a (List.mem_cons_self a l)⟩)
      (fun x hx => h x (List.mem_cons_of_mem a hx))

theorem foldl_worse_mem (l : List Verdict) (acc : Verdict) :
    l.foldl worse acc = acc ∨ l.foldl worse acc ∈ l := by
  induction l generalizing acc with
  | nil => exact Or.inl rfl
  | cons a l ih =>
    simp only [List.foldl_cons]
    rcases ih (worse acc a) with h | h
    · rw [h]
      unfold worse
      split
      · exact Or.inr (List.mem_cons_self a l)
      · exact Or.inl rfl
    · exact Or.inr (List.mem_cons_of_mem a h)

theorem worst_sev (l : List Verdict) : severity (worst l) = maxSeverity l :=
  foldl_worse_sev l Verdict.satisfied

theorem worst_mem (l : List Verdict) : worst l = Verdict.satisfied ∨ worst l ∈ l :=
  foldl_worse_mem l Verdict.satisfied

theorem foldl_worse_sat_le_two (l : List Verdict) (h : ∀ x ∈ l, severity x ≤ 2) :
    severity (List.foldl worse Verdict.satisfied l) ≤ 2 := by
  rw [foldl_worse_sev]
  exact foldl_max_le l (severity Verdict.satisfied) 2 (by simp [severity]) h

theorem worst_sev_le_two (l : List Verdict) (h : ∀ x ∈ l, severity x ≤ 2) :
    severity (worst l) ≤ 2 :=
  foldl_worse_sat_le_two l h

theorem foldl_worse_stay (l : List Verdict) (acc : Verdict) (hacc : severity acc = 3)
    (h : ∀ x ∈ l, severity x ≤ 3) : l.foldl worse acc = acc := by
  induction l with
  | nil => rfl
  | cons a l ih =>
    simp only [List.foldl_cons]
    have hw : worse acc a = acc := by
      unfold worse
      rw [if_neg]
      have := h a (List.mem_cons_self a l)
      omega
    rw [hw]
    exact ih (fun x hx => h x (List.mem_cons_of_mem a hx))

theorem worst_append_cons (l₁ : List Verdict) (c : Verdict) (rest : List Verdict)
    (h₁ : ∀ x ∈ l₁, severity x ≤ 2) (h₂ : ∀ x ∈ c :: rest, severity x = 3) :
    worst (l₁ ++ c :: rest) = c := by
  show List.foldl worse Verdict.satisfied (l₁ ++ c :: rest) = c
  rw [List.foldl_append]
  simp only [List.foldl_cons]
  have hlt : severity (List.foldl worse Verdict.satisfied l₁) < severity c := by
    have ha := foldl_worse_sat_le_two l₁ h₁
    have hc3 := h₂ c (List.mem_cons_self c rest)
    omega
  rw [worse_eq_right _ _ hlt]
  exact foldl_worse_stay rest c (h₂ c (List.mem_cons_self c rest))
    (fun x hx => (h₂ x (List.mem_cons_of_mem c hx)).le)

/-! Helper lemmas about the resolver's per-edge evaluation. -/

theorem evalDep_ne_conflict (g : DependencyGraph) (ov : List (String × Version))
    (e : Edge) (t : String) : evalDep g ov e ≠ Verdict.conflict t := by
  unfold evalDep
  cases effectiveVersion g ov e.target with
  | none => simp
  | some v =>
    dsimp only
    split <;> simp

theorem evalDep_sev_le_two (g : DependencyGraph) (ov : List (String × Version))
    (e : Edge) : severity (evalDep g ov e) ≤ 2 := by
  unfold evalDep
  cases effectiveVersion g ov e.target with
  | none => simp [severity]
  | some v =>
    dsimp only
    split <;> simp [severity]

theorem applyLie_cases (lies : List String) (i : String) (v : Verdict) :
    applyLie lies i v = v ∨ applyLie lies i v = Verdict.satisfied := by
  unfold applyLie
  split
  · cases v <;> simp
  · exact Or.inl rfl

theorem depVerdicts_sev_le_two (g : DependencyGraph) (ov : List (String × Version))
    (lies : List String) (i : String) :
    ∀ v ∈ depVerdicts g ov lies i, severity v ≤ 2 := by
  intro v hv
  unfold depVerdicts at hv
  rcases List.mem_map.mp hv with ⟨e, _, rfl⟩
  rcases applyLie_cases lies i (evalDep g ov e) with h | h <;> rw [h]
  · exact evalDep_sev_le_two g ov e
  · simp [severity]

theorem depVerdicts_satisfied (g : DependencyGraph) (ov : List (String × Version))
    (lies : List String) (i : String) (h : lies.contains i = true) :
    ∀ v ∈ depVerdicts g ov lies i, v = Verdict.satisfied := by
  intro v hv
  unfold depVerdicts at hv
  rcases List.mem_map.mp hv with ⟨e, _, rfl⟩
  unfold applyLie
  rw [if_pos h]
  cases he : evalDep g ov e with
  | satisfied => rfl
  | versionMismatch a b c => rfl
  | missingDependency a => rfl
  | conflict a => exact absurd he (evalDep_ne_conflict g ov e a)

theorem conflictVerdicts_conflict (g : DependencyGraph) (ov : List (String × Version))
    (i : String) : ∀ v ∈ conflictVerdicts g ov i, ∃ t, v = Verdict.conflict t := by
  intro v hv
  unfold conflictVerdicts at hv
  rcases List.mem_append.mp hv with h | h <;> rcases List.mem_map.mp h with ⟨e, _, rfl⟩
  · exact ⟨e.target, rfl⟩
  · exact ⟨e.src, rfl⟩

theorem conflictVerdicts_sev (g : DependencyGraph) (ov : List (String × Version))
    (i : String) : ∀ v ∈ conflictVerdicts g ov i, severity v = 3 := by
  intro v hv
  rcases conflictVerdicts_conflict g ov i v hv with ⟨t, rfl⟩
  rfl

theorem nodeVerdict_conflict_iff (g : DependencyGraph) (ov : List (String × Version))
    (lies : List String) (i : String) (t : String) :
    nodeVerdict g ov lies i = Verdict.conflict t ↔
      ∃ rest, conflictVerdicts g ov i = Verdict.conflict t :: rest := by
  unfold nodeVerdict edgeVerdicts
  cases hc : conflictVerdicts g ov i with
  | nil =>
    rw [List.append_nil]
    constructor
    · intro he
      have h2 := worst_sev_le_two (depVerdicts g ov lies i) (depVerdicts_sev_le_two g ov lies i)
      rw [he] at h2
      simp [severity] at h2
    · rintro ⟨rest, hr⟩
      cases hr
  | cons c rest =>
    rw [worst_append_cons (depVerdicts g ov lies i) c rest (depVerdicts_sev_le_two g ov lies i)
      (by rw [← hc]; exact conflictVerdicts_sev g ov i)]
    constructor
    · intro he
      exact ⟨rest, by rw [he]⟩
    · rintro ⟨rest', hr'⟩
      injection hr'

/-- Claim C1: for every mod id in the LieSet, resolution downgrades every
`MissingDependency`/`VersionMismatch` verdict on that id's outgoing
dependency edges to `Satisfied` (every lie-adjusted dependency-edge verdict
is `satisfied`, so the overall verdict can be neither `missingDependency`
nor `versionMismatch`), while a `Conflict` verdict for that id is never
changed by LieSet membership: the overall verdict is `conflict t` under one
LieSet exactly when it is under any other. -/
theorem c1_lieset_downgrade (g : DependencyGraph) (ov : List (String × Version))
    (lies : List String) (i : String) (h : lies.contains i = true) :
    (∀ v ∈ depVerdicts g ov lies i, v = Verdict.satisfied) ∧
    (∀ t, nodeVerdict g ov lies i ≠ Verdict.missingDependency t) ∧
    (∀ t r f, nodeVerdict g ov lies i ≠ Verdict.versionMismatch t r f) ∧
    (∀ (lies' : List String) (t : String),
      nodeVerdict g ov lies i = Verdict.conflict t ↔
        nodeVerdict g ov lies' i = Verdict.conflict t) := by
  have hsev : severity (nodeVerdict g ov lies i) = 0 ∨
      severity (nodeVerdict g ov lies i) = 3 := by
    rcases worst_mem (edgeVerdicts g ov lies i) with hs | hm
    · left
      unfold nodeVerdict
      rw [hs]
      rfl
    · unfold edgeVerdicts at hm
      rcases List.mem_append.mp hm with hd | hcf
      · left
        have h0 := depVerdicts_satisfied g ov lies i h _ hd
        unfold nodeVerdict edgeVerdicts
        rw [h0]
        rfl
      · right
        rcases conflictVerdicts_conflict g ov i _ hcf with ⟨t, ht⟩
        unfold nodeVerdict edgeVerdicts
        rw [ht]
        rfl
  refine ⟨depVerdicts_satisfied g ov lies i h, ?_, ?_, ?_⟩
  · intro t he
    rw [he] at hsev
    simp [severity] at hsev
  · intro t r f he
    rw [he] at hsev
    simp [severity] at hsev
  · intro lies' t
    exact (nodeVerdict_conflict_iff g ov lies i t).trans
      (nodeVerdict_conflict_iff g ov lies' i t).symm

/-- Claim C2: a mod's overall verdict is the worst of its per-edge verdicts
under the total severity order Conflict > MissingDependency >
VersionMismatch > Satisfied: its severity equals the maximum per-edge
severity, the maximum is attained (the overall verdict is `satisfied` or one
of the edge verdicts), and whenever any edge yields a `Conflict` the overall
verdict is a `Conflict` regardless of the other edges. -/
theorem c2_worst_verdict (g : DependencyGraph) (ov : List (String × Version))
    (lies : List String) (i : String) :
    severity (nodeVerdict g ov lies i) = maxSeverity (edgeVerdicts g ov lies i) ∧
    (nodeVerdict g ov lies i = Verdict.satisfied ∨
      nodeVerdict g ov lies i ∈ edgeVerdicts g ov lies i) ∧
    (∀ t, Verdict.conflict t ∈ edgeVerdicts g ov lies i →
      ∃ u, nodeVerdict g ov lies i = Verdict.conflict u) := by
  refine ⟨worst_sev (edgeVerdicts g ov lies i), worst_mem _, fun t ht => ?_⟩
  have h3 : severity (nodeVerdict g ov lies i) = 3 := by
    have hle : severity (nodeVerdict g ov lies i) ≤ 3 := severity_le_three _
    have hge : 3 ≤ severity (nodeVerdict g ov lies i) :=
      calc 3 = severity (Verdict.conflict t) := rfl
        _ ≤ maxSeverity (edgeVerdicts g ov lies i) :=
            sev_le_foldl_max (edgeVerdicts g ov lies i) 0 (Verdict.conflict t) ht
        _ = severity (nodeVerdict g ov lies i) := (worst_sev _).symm
    omega
  rw [severity_eq_three_iff] at h3
  exact h3

/-- Claim C4: when the override table maps an edge's target id to a version,
that version — not the target's declared one — is the effective version used
to evaluate the edge, and if the override version lies inside the edge's
required range the edge evaluates to `satisfied`. -/
theorem c4_override_precedence (g : DependencyGraph) (ov : List (String × Version))
    (e : Edge) (v : Version) (h : lookupOverride ov e.target = some v) :
    effectiveVersion g ov e.target = some v ∧
    (e.range.contains v = true → evalDep g ov e = Verdict.satisfied) := by
  have heff : effectiveVersion g ov e.target = some v := by
    unfold effectiveVersion
    rw [h]
  refine ⟨heff, fun hc => ?_⟩
  unfold evalDep
  rw [heff]
  simp [hc]

/-- Claim C3: `build` is total — for every descriptor set with unique ids it
returns a `DependencyGraph` (it is a plain function, no failure path), every
descriptor becomes a present node, every edge's target id is represented by
some node, and a dependency target with no descriptor is represented by the
synthetic absent node rather than rejected. -/
theorem c3_build_total (ds : List ModDescriptor) (h : (ds.map ModDescriptor.id).Nodup) :
    (∀ d ∈ ds, Node.present d ∈ (build ds).nodes) ∧
    (∀ e ∈ (build ds).edges, ∃ n ∈ (build ds).nodes, n.nodeId = e.target) ∧
    (∀ e ∈ (build ds).edges, e.target ∉ ds.map ModDescriptor.id →
      Node.absent e.target ∈ (build ds).nodes) := by
  have habs : ∀ e ∈ (build ds).edges, e.target ∉ ds.map ModDescriptor.id →
      Node.absent e.target ∈ (build ds).nodes := by
    intro e he ht
    show Node.absent e.target ∈ ds.map Node.present ++ _
    refine List.mem_append_right _ (List.mem_map_of_mem Node.absent ?_)
    rw [List.mem_dedup, List.mem_filter]
    refine ⟨List.mem_map_of_mem Edge.target he, ?_⟩
    simp only [Bool.not_eq_true', ← Bool.not_eq_true]
    intro hc
    exact ht (List.elem_iff.mp hc)
  refine ⟨?_, ?_, habs⟩
  · intro d hd
    show Node.present d ∈ ds.map Node.present ++ _
    exact List.mem_append_left _ (List.mem_map_of_mem Node.present hd)
  · intro e he
    by_cases ht : e.target ∈ ds.map ModDescriptor.id
    · rcases List.mem_map.mp ht with ⟨d, hd, hdi⟩
      refine ⟨Node.present d, ?_, hdi⟩
      show Node.present d ∈ ds.map Node.present ++ _
      exact List.mem_append_left _ (List.mem_map_of_mem Node.present hd)
    · exact ⟨Node.absent e.target, habs e he ht, rfl⟩

theorem resolve_filter_len (ns : List Node) (g : DependencyGraph)
    (ov : List (String × Version)) (lies : List String) (i : String) :
    ((ns.map (fun n => (n.nodeId, nodeVerdict g ov lies n.nodeId))).filter
        (fun p => p.1 == i)).length = (ns.map Node.nodeId).count i := by
  induction ns with
  | nil => rfl
  | cons n ns ih =>
    simp only [List.map_cons, List.filter_cons, List.count_cons]
    cases hb : (n.nodeId == i) <;> simp [hb, ih]

/-- Claim C6: the constraint resolver is total — for every graph, override
table and lie set it is a plain function producing a snapshot whose keys are
exactly the graph's node ids in order, and when the node ids are unique every
mod id in the graph is assigned exactly one verdict. -/
theorem c6_resolver_total (g : DependencyGraph) (ov : List (String × Version))
    (lies : List String) :
    (resolve g ov lies).map Prod.fst = g.nodes.map Node.nodeId ∧
    ((g.nodes.map Node.nodeId).Nodup →
      ∀ i ∈ g.nodes.map Node.nodeId,
        ((resolve g ov lies).filter (fun p => p.1 == i)).length = 1) := by
  constructor
  · unfold resolve
    rw [List.map_map]
    rfl
  · intro hnd i hi
    show ((g.nodes.map (fun n => (n.nodeId, nodeVerdict g ov lies n.nodeId))).filter
        (fun p => p.1 == i)).length = 1
    rw [resolve_filter_len]
    exact List.count_eq_one_of_mem hnd hi

/-- Claim C7: `mod-info` without a mod id lists all mods sorted by id in the
lexicographic string order (the output is sorted by id, and is a permutation
of the snapshot), and two runs on the same inputs produce the same order. -/
theorem c7_mod_info_sorted (g : DependencyGraph) (ov : List (String × Version))
    (lies : List String) :
    List.Sorted (fun a b : String × Verdict => a.1 ≤ b.1) (modInfoAll g ov lies) ∧
    List.Perm (modInfoAll g ov lies) (resolve g ov lies) ∧
    (∀ (g' : DependencyGraph) (ov' : List (String × Version)) (lies' : List String),
      g = g' → ov = ov' → lies = lies' →
        modInfoAll g ov lies = modInfoAll g' ov' lies') := by
  refine ⟨List.sorted_insertionSort _ _, List.perm_insertionSort _ _, ?_⟩
  rintro g' ov' lies' rfl rfl rfl
  rfl

theorem traceGo_len (g : DependencyGraph) (ov : List (String × Version))
    (lies : List String) (current : String) (remaining visited : List String) :
    (traceGo g ov lies current remaining visited).1.length ≤ remaining.length := by
  induction current, remaining, visited using traceGo.induct g ov lies with
  | case1 current remaining visited hv => simp [traceGo, hv]
  | case2 current remaining visited hv hr hp => simp [traceGo, hv, hr, hp]
  | case3 current remaining visited hv hr t v hp ih =>
    rw [traceGo]
    simp only [if_neg hv, dif_pos hr, hp]
    have he := List.length_erase_of_mem hr
    have hpos := List.length_pos_of_mem hr
    simp only [List.length_cons]
    omega
  | case4 current remaining visited hv hr => simp [traceGo, hv, hr]

theorem traceGo_cycle (g : DependencyGraph) (ov : List (String × Version))
    (lies : List String) (current : String) (remaining visited : List String) :
    (traceGo g ov lies current remaining visited).2 = TraceEnd.cycle →
    ¬ (visited ++ current :: (traceGo g ov lies current remaining visited).1.map Prod.fst).Nodup := by
  induction current, remaining, visited using traceGo.induct g ov lies with
  | case1 current remaining visited hv =>
    intro _
    rw [traceGo]
    simp only [if_pos hv, List.map_nil]
    intro hnd
    rw [List.nodup_append] at hnd
    exact hnd.2.2 hv (List.mem_cons_self current [])
  | case2 current remaining visited hv hr hp =>
    intro hc
    rw [traceGo] at hc
    simp [hv, hr, hp] at hc
  | case3 current remaining visited hv hr t v hp ih =>
    rw [traceGo]
    simp only [if_neg hv, dif_pos hr, hp, List.map_cons]
    intro hc hnd
    refine ih hc ?_
    have hperm :=
      @List.perm_middle String current visited
        (t :: List.map Prod.fst
          (traceGo g ov lies t (remaining.erase current) (current :: visited)).1)
    exact hperm.nodup_iff.mp hnd
  | case4 current remaining visited hv hr =>
    intro hc
    rw [traceGo] at hc
    simp [hv, hr] at hc

/-- Claim C5: the `why-depends` trace terminates on every graph, cyclic ones
included — whenever a trace is produced its length is bounded by the number
of graph nodes — and when the traversal reaches a node a second time the
trace ends with the `Cycle` marker: a `cycle` ending means the visited node
sequence (queried id followed by the step targets) repeats a node. -/
theorem c5_why_depends_terminates (g : DependencyGraph) (ov : List (String × Version))
    (lies : List String) (i : String) (t : Trace)
    (h : whyDepends g ov lies i = some t) :
    t.steps.length ≤ g.nodes.length ∧
    (t.ending = TraceEnd.cycle → ¬ (i :: t.steps.map Prod.fst).Nodup) := by
  unfold whyDepends at h
  split at h
  · injection h with h'
    subst h'
    constructor
    · have hl := traceGo_len g ov lies i (g.nodes.map Node.nodeId) []
      simpa using hl
    · intro hc
      have hnc := traceGo_cycle g ov lies i (g.nodes.map Node.nodeId) [] hc
      simpa using hnc
  · cases h

theorem whyDepends_cyc_eval :
    whyDepends gCyc [] [] "a" =
      some ⟨[("b", Verdict.satisfied), ("a", Verdict.satisfied)], TraceEnd.cycle⟩ := by
  have h3 : traceGo gCyc [] [] "a" [] ["b", "a"] = ([], TraceEnd.cycle) := by
    rw [traceGo]
    simp
  have hp2 : pickWorst (edgeChoices gCyc [] [] "b") = some ("a", Verdict.satisfied) := by
    decide
  have h2 : traceGo gCyc [] [] "b" ["b"] ["a"] =
      ([("a", Verdict.satisfied)], TraceEnd.cycle) := by
    rw [traceGo]
    simp [hp2, h3]
  have hp1 : pickWorst (edgeChoices gCyc [] [] "a") = some ("b", Verdict.satisfied) := by
    decide
  have herase : (["a", "b"] : List String).erase "a" = ["b"] := by decide
  have h1 : traceGo gCyc [] [] "a" ["a", "b"] [] =
      ([("b", Verdict.satisfied), ("a", Verdict.satisfied)], TraceEnd.cycle) := by
    rw [traceGo]
    simp [hp1, herase, h2]
  have hany : gCyc.nodes.any (fun n => n.nodeId == "a") = true := by decide
  have hmap : gCyc.nodes.map Node.nodeId = ["a", "b"] := by decide
  unfold whyDepends
  rw [if_pos hany, hmap, h1]

/-! Witness theorems: each applies its claim's theorem at concrete inputs,
discharging the hypotheses by evaluation. -/

/-- Witness for C1 at the sample graph `gLie` with LieSet `["a"]`. -/
theorem c1_witness :
    ((["a"] : List String).contains "a" = true) ∧
    (∀ v ∈ depVerdicts gLie [] ["a"] "a", v = Verdict.satisfied) ∧
    nodeVerdict gLie [] ["a"] "a" ≠ Verdict.missingDependency "b" ∧
    (nodeVerdict gLie [] ["a"] "a" = Verdict.conflict "c" ↔
      nodeVerdict gLie [] [] "a" = Verdict.conflict "c") :=
  ⟨by decide, (c1_lieset_downgrade gLie [] ["a"] "a" (by decide)).1,
    (c1_lieset_downgrade gLie [] ["a"] "a" (by decide)).2.1 "b",
    (c1_lieset_downgrade gLie [] ["a"] "a" (by decide)).2.2.2 [] "c"⟩

/-- Witness for C2 at the sample graph `gLie`: an edge yields `Conflict`
and the overall verdict is a `Conflict`. -/
theorem c2_witness :
    severity (nodeVerdict gLie [] [] "a") = maxSeverity (edgeVerdicts gLie [] [] "a") ∧
    Verdict.conflict "c" ∈ edgeVerdicts gLie [] [] "a" ∧
    (∃ u, nodeVerdict gLie [] [] "a" = Verdict.conflict u) :=
  ⟨(c2_worst_verdict gLie [] [] "a").1, by decide,
    (c2_worst_verdict gLie [] [] "a").2.2 "c" (by decide)⟩

/-- Witness for C3: descriptors with unique ids build a graph containing the
present nodes and a synthetic absent node for the unknown target `b`. -/
theorem c3_witness :
    (([dLieA, dLieC].map ModDescriptor.id).Nodup) ∧
    Node.present dLieA ∈ (build [dLieA, dLieC]).nodes ∧
    Node.absent "b" ∈ (build [dLieA, dLieC]).nodes :=
  ⟨by decide, (c3_build_total [dLieA, dLieC] (by decide)).1 dLieA (by decide),
    (c3_build_total [dLieA, dLieC] (by decide)).2.2 ⟨"a", "b", rGe2, true⟩
      (by decide) (by decide)⟩

/-- Witness for C4, the spec's scenario: `a` requires `b >= 2.0.0`, `b` is
present at 1.0.0 (edge verdict `VersionMismatch`); overriding `b` to 2.1.0
makes the override the effective version and the edge `Satisfied`. -/
theorem c4_witness :
    lookupOverride [("b", v21)] e4.target = some v21 ∧
    effectiveVersion g4 [("b", v21)] e4.target = some v21 ∧
    evalDep g4 [("b", v21)] e4 = Verdict.satisfied ∧
    evalDep g4 [] e4 = Verdict.versionMismatch "b" rGe2 v1 :=
  ⟨by decide, (c4_override_precedence g4 [("b", v21)] e4 v21 (by decide)).1,
    (c4_override_precedence g4 [("b", v21)] e4 v21 (by decide)).2 (by decide),
    by decide⟩

/-- Witness for C5 on the cyclic sample graph `a -> b -> a`: the trace is
produced, respects the length bound, and its `cycle` ending repeats `a`. -/
theorem c5_witness :
    whyDepends gCyc [] [] "a" =
      some ⟨[("b", Verdict.satisfied), ("a", Verdict.satisfied)], TraceEnd.cycle⟩ ∧
    (Trace.mk [("b", Verdict.satisfied), ("a", Verdict.satisfied)]
      TraceEnd.cycle).steps.length ≤ gCyc.nodes.length ∧
    ¬ (("a" : String) :: (Trace.mk [("b", Verdict.satisfied), ("a", Verdict.satisfied)]
      TraceEnd.cycle).steps.map Prod.fst).Nodup :=
  ⟨whyDepends_cyc_eval,
    (c5_why_depends_terminates gCyc [] [] "a" _ whyDepends_cyc_eval).1,
    (c5_why_depends_terminates gCyc [] [] "a" _ whyDepends_cyc_eval).2 rfl⟩

/-- Witness for C6 at the sample graph `gLie`. -/
theorem c6_witness :
    ((resolve gLie [] []).map Prod.fst = gLie.nodes.map Node.nodeId) ∧
    (gLie.nodes.map Node.nodeId).Nodup ∧
    ((resolve gLie [] []).filter (fun p => p.1 == "a")).length = 1 :=
  ⟨(c6_resolver_total gLie [] []).1, by decide,
    (c6_resolver_total gLie [] []).2 (by decide) "a" (by decide)⟩

/-- Witness for C7 at the three-mod sample graph `gM`. -/
theorem c7_witness :
    List.Sorted (fun a b : String × Verdict => a.1 ≤ b.1) (modInfoAll gM [] []) ∧
    List.Perm (modInfoAll gM [] []) (resolve gM [] []) ∧
    modInfoAll gM [] [] = modInfoAll gM [] [] :=
  ⟨(c7_mod_info_sorted gM [] []).1, (c7_mod_info_sorted gM [] []).2.1,
    (c7_mod_info_sorted gM [] []).2.2 gM [] [] rfl rfl rfl⟩

/-- Claim C8 counterexample: a successfully parsed `why-depends` invocation
for a modid the program cannot know (nothing is ever loaded) exits 0, not
the 2 the contract requires — the stub `main` implements no exit-code
logic. -/
theorem c8_counterexample :
    mainOutput argsWhy = "Hello, world!\n" ∧
    mainExitCode argsWhy = 0 ∧ mainExitCode argsWhy ≠ 2 :=
  ⟨rfl, rfl, by decide⟩

/-- Claim C8 amended: `main` exits 0 on every successfully parsed
invocation, whatever the subcommand and arguments; the exit codes 1 and 2 of
the CLI contract are never produced because no analysis is implemented. -/
theorem c8_exit_always_zero (a : SharedOpt) : mainExitCode a = 0 := rfl

/-- Claim C9: the entry point is a placeholder — every parsed invocation
prints exactly the greeting and exits 0; no loading, graph building,
resolution or query logic affects `main`'s observable behaviour. -/
theorem c9_placeholder_main (a : SharedOpt) :
    mainOutput a = "Hello, world!\n" ∧ mainExitCode a = 0 :=
  ⟨rfl, rfl⟩

/-- Claim C10: the program's observable output is independent of its
arguments — any two successfully parsed argument records give identical
standard output and identical exit codes, because the parsed `args` value is
never used after `SharedOpt::from_args()`. -/
theorem c10_output_independent (a b : SharedOpt) :
    mainOutput a = mainOutput b ∧ mainExitCode a = mainExitCode b :=
  ⟨rfl, rfl⟩

end MCPacker
